import Mathlib

/-!
# Verification of the asyncer resilience core

Shallow embedding of the resilience primitives of the `asyncer` library
(`src/async.ts`, `src/concurrency.ts`, and the circuit-breaker/bulkhead
module) together with proofs of the specified properties.

Conventions of the embedding:
* A zero-argument asynchronous task is modelled by its outcome, an
  `Except Err T`; a task that is invoked repeatedly (the retry engine) is
  modelled as a function from the attempt index to its outcome.
* Rejection values are drawn from the library's error domain (`Error`
  instances, in particular `ApiError` with a status code); `Err` below.
* Wall-clock instants are natural numbers (milliseconds); comparisons that
  JavaScript performs on possibly-negative differences are carried out in
  `Int`, mirroring `Date.now() - lastFailureTime >= resetTimeout`.
* JavaScript numerics used for delays/multipliers are modelled exactly by
  `ℚ` (the spec's delay formula is exact arithmetic).
-/

/-- Details payload of an `ApiError` (`src/error.ts`): we keep the fields
the resilience core actually writes: the `code` tag and, for the
circuit-open error, the `lastFailure` trip timestamp (the source renders it
as an ISO string of the same instant; we carry the instant itself). -/
structure ErrDetails where
  code : Option String
  lastFailure : Option Nat
deriving DecidableEq

/-- The library's error domain: an `ApiError` (status code, message,
optional details) from `src/error.ts`, or a plain `Error` with a message. -/
inductive Err where
  | apiError (statusCode : Nat) (message : String) (details : Option ErrDetails)
  | plain (message : String)
deriving DecidableEq

/-- Observable trace of one `retryAsync` call (`src/async.ts:56`):
the final settlement, how many times the task was invoked, the
`onRetry(error, attempt + 1)` observer calls in order, and the sequence of
delays passed to `sleep`, in order. -/
structure RetryTrace (T : Type) where
  result : Except Err T
  invocations : Nat
  onRetryCalls : List (Err × Nat)
  sleeps : List ℚ

/-- The loop of `retryAsync` (`src/async.ts:72-89`).  `rem` is the number
of loop iterations still allowed after the current one (`retries - attempt`),
`attempt` the current attempt index and `cur` the mutable `currentDelay`.
On failure, when `attempt === retries` or `shouldRetry` rejects, the error
is propagated; otherwise the observer fires with `(error, attempt + 1)`,
`sleep(currentDelay)` runs, and `currentDelay` becomes
`min(currentDelay * backoffMultiplier, maxDelay)`. -/
def retryGo {T : Type} (fn : Nat → Except Err T) (shouldRetry : Err → Nat → Bool)
    (mult maxDelay : ℚ) : Nat → Nat → ℚ → RetryTrace T
  | 0, attempt, _ =>
    match fn attempt with
    | .ok v => ⟨.ok v, 1, [], []⟩
    | .error e => ⟨.error e, 1, [], []⟩
  | rem + 1, attempt, cur =>
    match fn attempt with
    | .ok v => ⟨.ok v, 1, [], []⟩
    | .error e =>
      if shouldRetry e attempt then
        let rest := retryGo fn shouldRetry mult maxDelay rem (attempt + 1)
          (min (cur * mult) maxDelay)
        ⟨rest.result, rest.invocations + 1, (e, attempt + 1) :: rest.onRetryCalls,
          cur :: rest.sleeps⟩
      else ⟨.error e, 1, [], []⟩

/-- `retryAsync(fn, options)` (`src/async.ts:56-92`): runs the loop from
attempt `0` with `currentDelay = delay`. -/
def retryAsync {T : Type} (fn : Nat → Except Err T) (retries : Nat)
    (delay mult maxDelay : ℚ) (shouldRetry : Err → Nat → Bool) : RetryTrace T :=
  retryGo fn shouldRetry mult maxDelay retries 0 delay

/-- The default retry predicate (`shouldRetry = () => true`). -/
def alwaysRetry : Err → Nat → Bool := fun _ _ => true

/-- A task that fails on every invocation. -/
def alwaysFail : Nat → Except Err Unit := fun _ => .error (.plain "boom")

/-- The value of `currentDelay` at the start of the `k`-th retry sleep,
when the first sleep uses `d`: each step maps `d` to
`min (d * m) maxDelay`. -/
def backoffDelay (m M : ℚ) : ℚ → Nat → ℚ
  | d, 0 => d
  | d, k + 1 => backoffDelay m M (min (d * m) M) k

theorem retryGo_sleeps_get (T : Type) (fn : Nat → Except Err T)
    (sr : Err → Nat → Bool) (m M : ℚ) :
    ∀ (rem a : Nat) (cur : ℚ) (k : Nat),
      k < (retryGo fn sr m M rem a cur).sleeps.length →
      (retryGo fn sr m M rem a cur).sleeps[k]? = some (backoffDelay m M cur k) := by
  intro rem
  induction rem with
  | zero =>
    intro a cur k hk
    exfalso
    revert hk
    cases h : fn a <;> simp [retryGo, h]
  | succ rem ih =>
    intro a cur k hk
    cases h : fn a with
    | ok v =>
      exfalso
      revert hk
      simp [retryGo, h]
    | error e =>
      by_cases hs : sr e a
      · cases k with
        | zero => simp [retryGo, h, hs, backoffDelay]
        | succ k =>
          have hk' : k < (retryGo fn sr m M rem (a + 1) (min (cur * m) M)).sleeps.length := by
            revert hk
            simp [retryGo, h, hs]
          have := ih (a + 1) (min (cur * m) M) k hk'
          simp only [retryGo, h, hs, if_true]
          simpa [backoffDelay] using this
      · exfalso
        revert hk
        simp [retryGo, h, hs]

theorem backoffDelay_closed (m M : ℚ) (hm : 1 ≤ m) (hM : 0 ≤ M) :
    ∀ (k : Nat) (d : ℚ),
      backoffDelay m M d k = if k = 0 then d else min (d * m ^ k) M := by
  intro k
  induction k with
  | zero => intro d; simp [backoffDelay]
  | succ k ih =>
    intro d
    have hpow : (1 : ℚ) ≤ m ^ k := one_le_pow₀ hm
    rw [backoffDelay, ih]
    cases k with
    | zero => simp [pow_one]
    | succ n =>
      simp only [Nat.succ_ne_zero, if_false]
      by_cases h : d * m ≤ M
      · rw [min_eq_left h]
        congr 1
        ring
      · push_neg at h
        rw [min_eq_right h.le]
        have h1 : M ≤ M * m ^ (n + 1) := le_mul_of_one_le_right hM hpow
        have h2 : M ≤ d * m ^ (n + 1 + 1) := by
          have hdm : (0 : ℚ) ≤ d * m := le_trans hM h.le
          calc M ≤ d * m := h.le
            _ ≤ d * m * m ^ (n + 1) := le_mul_of_one_le_right hdm hpow
            _ = d * m ^ (n + 1 + 1) := by ring
        rw [min_eq_right h1, min_eq_right h2]

/-- C3, counterexample: with `delay = 2`, `backoffMultiplier = 1` and
`maxDelay = 1`, the delay slept before the first retry (`k = 0`) is `2`,
not `min (2 * 1 ^ 0) 1 = 1`: the first sleep uses the base delay uncapped,
because `retryAsync` applies the `min` with `maxDelay` only when updating
`currentDelay` after the sleep. -/
theorem retry_backoff_first_delay_uncapped :
    (retryAsync alwaysFail 1 2 1 1 alwaysRetry).sleeps = [2] ∧
    ¬ ((2 : ℚ) = min ((2 : ℚ) * 1 ^ 0) 1) := by
  constructor
  · decide
  · norm_num

/-- C3 (amended): for `backoffMultiplier ≥ 1` and `maxDelay ≥ 0`, the delay
slept before the `k`-th retry equals `delay` itself for `k = 0` (uncapped)
and `min (delay * mult ^ k) maxDelay` for every `k ≥ 1`; consequently, when
`delay ≤ maxDelay`, the spec formula `min (delay * mult ^ k) maxDelay`
holds for every `k`, including the first. -/
theorem retry_backoff_delay_formula (T : Type) (fn : Nat → Except Err T)
    (sr : Err → Nat → Bool) (retries : Nat) (d m M : ℚ)
    (hm : 1 ≤ m) (hM : 0 ≤ M) (k : Nat)
    (hk : k < (retryAsync fn retries d m M sr).sleeps.length) :
    (retryAsync fn retries d m M sr).sleeps[k]? =
      some (if k = 0 then d else min (d * m ^ k) M) ∧
    (d ≤ M → (retryAsync fn retries d m M sr).sleeps[k]? =
      some (min (d * m ^ k) M)) := by
  have h1 := retryGo_sleeps_get T fn sr m M retries 0 d k hk
  rw [backoffDelay_closed m M hm hM] at h1
  refine ⟨h1, fun hdM => ?_⟩
  rcases Nat.eq_zero_or_pos k with hk0 | hkpos
  · subst hk0
    simpa [min_eq_left hdM] using h1
  · simpa [Nat.pos_iff_ne_zero.mp hkpos] using h1

theorem retry_backoff_delay_formula_witness :
    ((1 : ℚ) ≤ 2 ∧ (0 : ℚ) ≤ 3 ∧
      1 < (retryAsync alwaysFail 2 1 2 3 alwaysRetry).sleeps.length) ∧
    (retryAsync alwaysFail 2 1 2 3 alwaysRetry).sleeps[1]? =
      some (if 1 = 0 then (1 : ℚ) else min ((1 : ℚ) * 2 ^ 1) 3) := by
  refine ⟨⟨by norm_num, by norm_num, by decide⟩, ?_⟩
  exact (retry_backoff_delay_formula Unit alwaysFail alwaysRetry 2 1 2 3
    (by norm_num) (by norm_num) 1 (by decide)).1

/-- The task used in C5: fails on its first `k` invocations with
`errs 0, …, errs (k-1)`, then succeeds with `v`. -/
def failNTask {T : Type} (k : Nat) (errs : Nat → Err) (v : T) :
    Nat → Except Err T :=
  fun i => if i < k then .error (errs i) else .ok v

theorem retryGo_failN_success {T : Type} (k : Nat) (errs : Nat → Err) (v : T)
    (m M : ℚ) :
    ∀ (rem a : Nat) (cur : ℚ), a ≤ k → k ≤ a + rem →
      (retryGo (failNTask k errs v) alwaysRetry m M rem a cur).result = .ok v ∧
      (retryGo (failNTask k errs v) alwaysRetry m M rem a cur).invocations
        = k - a + 1 ∧
      (retryGo (failNTask k errs v) alwaysRetry m M rem a cur).onRetryCalls
        = (List.range' a (k - a)).map (fun i => (errs i, i + 1)) := by
  intro rem
  induction rem with
  | zero =>
    intro a cur ha hk
    have hak : a = k := Nat.le_antisymm ha (by simpa using hk)
    subst hak
    simp [retryGo, failNTask]
  | succ rem ih =>
    intro a cur ha hk
    rcases Nat.lt_or_ge a k with hlt | hge
    · have hfn : failNTask k errs v a = .error (errs a) := by
        simp [failNTask, hlt]
      have hih := ih (a + 1) (min (cur * m) M) hlt (by omega)
      have hcnt : k - (a + 1) + 1 + 1 = k - a + 1 := by omega
      have hrange : (a, k - a) = (a, k - (a + 1) + 1) := by
        simp only [Prod.mk.injEq, true_and]
        omega
      refine ⟨?_, ?_, ?_⟩
      · simp only [retryGo, hfn, alwaysRetry, if_true]
        exact hih.1
      · simp only [retryGo, hfn, alwaysRetry, if_true]
        rw [hih.2.1]
        omega
      · simp only [retryGo, hfn, alwaysRetry, if_true]
        rw [hih.2.2]
        have : k - a = (k - (a + 1)) + 1 := by omega
        rw [this, List.range'_succ, List.map_cons]
    · have hak : a = k := Nat.le_antisymm ha hge
      subst hak
      simp [retryGo, failNTask]

theorem retryGo_failN_exhaust {T : Type} (k : Nat) (errs : Nat → Err) (v : T)
    (m M : ℚ) :
    ∀ (rem a : Nat) (cur : ℚ), a + rem < k →
      (retryGo (failNTask k errs v) alwaysRetry m M rem a cur).result
        = .error (errs (a + rem)) ∧
      (retryGo (failNTask k errs v) alwaysRetry m M rem a cur).invocations
        = rem + 1 := by
  intro rem
  induction rem with
  | zero =>
    intro a cur ha
    have hfn : failNTask k errs v a = .error (errs a) := by
      simp [failNTask]
      omega
    simp [retryGo, hfn]
  | succ rem ih =>
    intro a cur ha
    have hfn : failNTask k errs v a = .error (errs a) := by
      simp [failNTask]
      omega
    have hih := ih (a + 1) (min (cur * m) M) (by omega)
    have harith : a + 1 + rem = a + (rem + 1) := by omega
    refine ⟨?_, ?_⟩
    · simp only [retryGo, hfn, alwaysRetry, if_true]
      rw [hih.1, harith]
    · simp only [retryGo, hfn, alwaysRetry, if_true]
      rw [hih.2]

/-- C5: for a task failing on its first `k` invocations then succeeding
with `v`, `retryAsync` with `retries ≥ k` returns the success, invokes the
task `k + 1` times and fires the retry observer exactly `k` times with
attempt indices `1..k`; with `retries < k` it fails with the
`(retries + 1)`-th failure after `retries + 1` invocations; and
`retries = 0` means exactly one invocation, no observer call and no
sleep. -/
theorem retry_fail_k_then_succeed (T : Type) (k retries : Nat)
    (errs : Nat → Err) (v : T) (d m M : ℚ) :
    (k ≤ retries →
      (retryAsync (failNTask k errs v) retries d m M alwaysRetry).result
        = .ok v ∧
      (retryAsync (failNTask k errs v) retries d m M alwaysRetry).invocations
        = k + 1 ∧
      (retryAsync (failNTask k errs v) retries d m M alwaysRetry).onRetryCalls
        = (List.range k).map (fun i => (errs i, i + 1))) ∧
    (retries < k →
      (retryAsync (failNTask k errs v) retries d m M alwaysRetry).result
        = .error (errs retries) ∧
      (retryAsync (failNTask k errs v) retries d m M alwaysRetry).invocations
        = retries + 1) ∧
    (retries = 0 →
      (retryAsync (failNTask k errs v) retries d m M alwaysRetry).invocations
        = 1 ∧
      (retryAsync (failNTask k errs v) retries d m M alwaysRetry).onRetryCalls
        = [] ∧
      (retryAsync (failNTask k errs v) retries d m M alwaysRetry).sleeps
        = []) := by
  refine ⟨fun hkr => ?_, fun hrk => ?_, fun hr0 => ?_⟩
  · have h := retryGo_failN_success k errs v m M retries 0 d (Nat.zero_le k)
      (by omega)
    refine ⟨h.1, by simpa using h.2.1, ?_⟩
    rw [retryAsync, h.2.2]
    simp [List.range_eq_range']
  · have h := retryGo_failN_exhaust k errs v m M retries 0 d (by omega)
    exact ⟨by simpa using h.1, h.2⟩
  · subst hr0
    cases hfn : failNTask k errs v 0 <;>
      simp [retryAsync, retryGo, hfn]

theorem retry_fail_k_then_succeed_witness :
    ((retryAsync (failNTask 2 (fun i => Err.plain (toString i)) 7) 3
        1 1 1 alwaysRetry).result = .ok 7 ∧
      (retryAsync (failNTask 2 (fun i => Err.plain (toString i)) 7) 3
        1 1 1 alwaysRetry).invocations = 2 + 1 ∧
      (retryAsync (failNTask 2 (fun i => Err.plain (toString i)) 7) 3
        1 1 1 alwaysRetry).onRetryCalls
        = (List.range 2).map (fun i => (Err.plain (toString i), i + 1))) ∧
    ((retryAsync (failNTask 2 (fun i => Err.plain (toString i)) 7) 1
        1 1 1 alwaysRetry).result = .error (Err.plain (toString 1)) ∧
      (retryAsync (failNTask 2 (fun i => Err.plain (toString i)) 7) 1
        1 1 1 alwaysRetry).invocations = 1 + 1) ∧
    ((retryAsync (failNTask 2 (fun i => Err.plain (toString i)) 7) 0
        1 1 1 alwaysRetry).invocations = 1 ∧
      (retryAsync (failNTask 2 (fun i => Err.plain (toString i)) 7) 0
        1 1 1 alwaysRetry).onRetryCalls = [] ∧
      (retryAsync (failNTask 2 (fun i => Err.plain (toString i)) 7) 0
        1 1 1 alwaysRetry).sleeps = []) :=
  ⟨(retry_fail_k_then_succeed Nat 2 3 (fun i => Err.plain (toString i)) 7
      1 1 1).1 (by omega),
    (retry_fail_k_then_succeed Nat 2 1 (fun i => Err.plain (toString i)) 7
      1 1 1).2.1 (by omega),
    (retry_fail_k_then_succeed Nat 2 0 (fun i => Err.plain (toString i)) 7
      1 1 1).2.2 rfl⟩

theorem retryGo_error_is_last {T : Type} (fn : Nat → Except Err T)
    (sr : Err → Nat → Bool) (m M : ℚ) :
    ∀ (rem a : Nat) (cur : ℚ) (e : Err),
      (retryGo fn sr m M rem a cur).result = .error e →
      fn (a + (retryGo fn sr m M rem a cur).invocations - 1) = .error e := by
  intro rem
  induction rem with
  | zero =>
    intro a cur e he
    cases hfn : fn a with
    | ok v =>
      rw [retryGo, hfn] at he
      exact absurd he (by simp)
    | error e' =>
      rw [retryGo, hfn] at he
      simp only at he
      cases he
      simp [retryGo, hfn]
  | succ rem ih =>
    intro a cur e he
    cases hfn : fn a with
    | ok v =>
      rw [retryGo, hfn] at he
      exact absurd he (by simp)
    | error e' =>
      by_cases hs : sr e' a
      · rw [retryGo, hfn] at he
        simp only [hs, if_true] at he
        have hih := ih (a + 1) (min (cur * m) M) e he
        have harith :
            a + 1 + (retryGo fn sr m M rem (a + 1) (min (cur * m) M)).invocations - 1
            = a + ((retryGo fn sr m M rem (a + 1) (min (cur * m) M)).invocations + 1)
              - 1 := by
          omega
        rw [harith] at hih
        simpa [retryGo, hfn, hs] using hih
      · rw [retryGo, hfn] at he
        simp only [hs, if_false] at he
        cases he
        simp [retryGo, hfn, hs]

/-- C8: whenever `retryAsync` settles with a failure (attempts exhausted or
`shouldRetry` rejected further retries), the error it throws is exactly the
error produced by its final invocation of the task — the last observed
failure, not a wrapper around it. -/
theorem retry_rethrows_last_error (T : Type) (fn : Nat → Except Err T)
    (retries : Nat) (d m M : ℚ) (sr : Err → Nat → Bool) (e : Err)
    (h : (retryAsync fn retries d m M sr).result = .error e) :
    fn ((retryAsync fn retries d m M sr).invocations - 1) = .error e := by
  have := retryGo_error_is_last fn sr m M retries 0 d e h
  simpa using this

theorem retry_rethrows_last_error_witness :
    (retryAsync alwaysFail 1 1 1 1 alwaysRetry).result
      = .error (.plain "boom") ∧
    alwaysFail ((retryAsync alwaysFail 1 1 1 1 alwaysRetry).invocations - 1)
      = .error (.plain "boom") :=
  ⟨rfl,
    retry_rethrows_last_error Unit alwaysFail 1 1 1 1 alwaysRetry
      (.plain "boom") rfl⟩

/-- A settled asynchronous computation: the instant (ms) at which it
settles and its outcome.  Used to model the deadline race inside
`withTimeout` (`src/async.ts:133-156`). -/
structure Settled (T : Type) where
  time : Nat
  outcome : Except Err T

/-- The timeout rejection (`src/async.ts:141-145`): an `ApiError` with
status 408 and either the caller's message or the default one. -/
def timeoutError (ms : Nat) (message : Option String) : Err :=
  .apiError 408 (message.getD ("Operation timed out after " ++ toString ms ++ "ms")) none

/-- `Promise.race` over two settled computations: the earlier settlement
wins; on a tie the first-listed one (the task) wins. -/
def race {T : Type} (a b : Settled T) : Settled T :=
  if a.time ≤ b.time then a else b

/-- Result of `withTimeout`: the settlement observed by the caller and
whether the deadline timer was cleared by the `finally` block. -/
structure TimeoutResult (T : Type) where
  result : Except Err T
  timerCleared : Bool

/-- `withTimeout(promise, ms, message?)` (`src/async.ts:133-156`): races the
task against a timer that rejects with the 408 error at time `ms`; the
`finally` block clears the timer handle (which is always set, since the
`Promise` executor runs synchronously). -/
def withTimeout {T : Type} (task : Settled T) (ms : Nat) (message : Option String) :
    TimeoutResult T :=
  let timeoutId : Option Nat := some ms
  let winner := race task ⟨ms, .error (timeoutError ms message)⟩
  ⟨winner.outcome, timeoutId.isSome⟩

/-- C9: `withTimeout` propagates the task's own settlement when the task
settles before the deadline, rejects with the 408-classified timeout
failure when the task has not settled within the duration, and clears the
deadline timer on every exit path. -/
theorem withTimeout_race_spec (T : Type) (task : Settled T) (ms : Nat)
    (msg : Option String) :
    (task.time < ms → (withTimeout task ms msg).result = task.outcome) ∧
    (ms < task.time →
      (withTimeout task ms msg).result = .error (timeoutError ms msg)) ∧
    (withTimeout task ms msg).timerCleared = true := by
  refine ⟨fun h => ?_, fun h => ?_, rfl⟩
  · simp [withTimeout, race, le_of_lt h]
  · simp [withTimeout, race, Nat.not_le_of_lt h]

theorem withTimeout_race_spec_witness :
    (withTimeout (⟨3, .ok 42⟩ : Settled Nat) 5 none).result = .ok 42 ∧
    (withTimeout (⟨9, .ok 42⟩ : Settled Nat) 5 none).result
      = .error (timeoutError 5 none) ∧
    (withTimeout (⟨3, .ok 42⟩ : Settled Nat) 5 none).timerCleared = true :=
  ⟨(withTimeout_race_spec Nat ⟨3, .ok 42⟩ 5 none).1 (by decide),
    (withTimeout_race_spec Nat ⟨9, .ok 42⟩ 5 none).2.1 (by decide),
    (withTimeout_race_spec Nat ⟨3, .ok 42⟩ 5 none).2.2⟩

/-- Internal state of `semaphore(limit)` (`src/concurrency.ts:282-315`):
the `count` of held slots (a JavaScript number, so it can go negative — we
model it as an integer) and the FIFO `queue` of pending acquirers,
identified by caller-chosen ids. -/
structure SemState where
  count : Int
  queue : List Nat
deriving DecidableEq

/-- Outcome of one `acquire()` call: the returned promise either resolved
immediately or was parked in the wait queue. -/
inductive AcquireOutcome where
  | resolved
  | parked
deriving DecidableEq

/-- `acquire()` (`src/concurrency.ts:287-296`): if `count < limit`,
increment `count` and resolve immediately; otherwise append the resolver to
the wait queue. -/
def SemState.acquire (limit : Int) (s : SemState) (wid : Nat) :
    AcquireOutcome × SemState :=
  if s.count < limit then (.resolved, { s with count := s.count + 1 })
  else (.parked, { s with queue := s.queue ++ [wid] })

/-- `release()` (`src/concurrency.ts:298-305`): if the wait queue is
non-empty, pop and wake its oldest entry (`count` unchanged); otherwise
decrement `count`.  Returns the id of the woken waiter, if any. -/
def SemState.release (s : SemState) : Option Nat × SemState :=
  match s.queue with
  | [] => (none, { s with count := s.count - 1 })
  | w :: rest => (some w, { s with queue := rest })

/-- The `available` getter (`src/concurrency.ts:307-309`): `limit - count`. -/
def SemState.available (limit : Int) (s : SemState) : Int :=
  limit - s.count

/-- A sequence of `acquire()` calls with the given waiter ids, collecting
each call's outcome. -/
def SemState.acquires (limit : Int) (s : SemState) :
    List Nat → List AcquireOutcome × SemState
  | [] => ([], s)
  | wid :: rest =>
    let (o, s1) := SemState.acquire limit s wid
    let (os, s2) := SemState.acquires limit s1 rest
    (o :: os, s2)

/-- A sequence of `n` `release()` calls, collecting the woken waiter of
each call. -/
def SemState.releases (s : SemState) : Nat → List (Option Nat) × SemState
  | 0 => ([], s)
  | n + 1 =>
    let (w, s1) := SemState.release s
    let (ws, s2) := SemState.releases s1 n
    (w :: ws, s2)

theorem SemState.acquires_resolved (limit : Int) :
    ∀ (ids : List Nat) (s : SemState), s.count + ids.length ≤ limit →
      SemState.acquires limit s ids
        = (List.replicate ids.length .resolved, { s with count := s.count + ids.length }) := by
  intro ids
  induction ids with
  | nil =>
    intro s _
    simp [SemState.acquires]
  | cons wid rest ih =>
    intro s hs
    have hlt : s.count < limit := by
      have : (rest.length : Int) ≥ 0 := Int.natCast_nonneg _
      simp only [List.length_cons] at hs
      omega
    have hih := ih { s with count := s.count + 1 } (by
      simp only [List.length_cons] at hs
      simp only []
      push_cast at hs ⊢
      omega)
    simp only [SemState.acquires, SemState.acquire, hlt, if_true, hih,
      List.length_cons, List.replicate_succ, Prod.mk.injEq]
    refine ⟨trivial, ?_⟩
    congr 1
    push_cast
    ring

theorem SemState.acquires_parked (limit : Int) :
    ∀ (ids : List Nat) (s : SemState), limit ≤ s.count →
      SemState.acquires limit s ids
        = (List.replicate ids.length .parked, { s with queue := s.queue ++ ids }) := by
  intro ids
  induction ids with
  | nil =>
    intro s _
    simp [SemState.acquires]
  | cons wid rest ih =>
    intro s hs
    have hnlt : ¬ s.count < limit := by omega
    have hih := ih { s with queue := s.queue ++ [wid] } hs
    simp only [SemState.acquires, SemState.acquire, hnlt, if_false, hih,
      List.length_cons, List.replicate_succ]
    simp

theorem SemState.releases_fifo :
    ∀ (n : Nat) (s : SemState), n ≤ s.queue.length →
      SemState.releases s n
        = ((s.queue.take n).map some, { s with queue := s.queue.drop n }) := by
  intro n
  induction n with
  | zero =>
    intro s _
    simp [SemState.releases]
  | succ n ih =>
    intro s hs
    match hq : s.queue with
    | [] => simp [hq] at hs
    | w :: rest =>
      have hih := ih { s with queue := rest } (by simp [hq] at hs ⊢; omega)
      simp [SemState.releases, SemState.release, hq, hih]

/-- C2: for a semaphore of capacity `N` starting fresh, `N` acquisitions
all resolve immediately, filling `count` to `N`; every further `acquire`
(the `(N+1)`-th included) parks in the wait queue and does not resolve;
`release` with a non-empty queue wakes exactly the oldest waiter leaving
`count` unchanged (ownership transfer), so performing as many releases as
there are waiters wakes them exactly in arrival order (FIFO, none
skipped); and `release` with an empty queue decrements `count`. -/
theorem semaphore_fifo_wakeup (N : Nat) (A W : List Nat)
    (hA : A.length = N) (_hW : W ≠ []) :
    SemState.acquires (N : Int) ⟨0, []⟩ A
      = (List.replicate N .resolved, ⟨(N : Int), []⟩) ∧
    SemState.acquires (N : Int) ⟨(N : Int), []⟩ W
      = (List.replicate W.length .parked, ⟨(N : Int), W⟩) ∧
    SemState.releases ⟨(N : Int), W⟩ W.length
      = (W.map some, ⟨(N : Int), []⟩) ∧
    SemState.release ⟨(N : Int), []⟩ = (none, ⟨(N : Int) - 1, []⟩) := by
  refine ⟨?_, ?_, ?_, ?_⟩
  · have h := SemState.acquires_resolved (N : Int) A ⟨0, []⟩ (by simp [hA])
    simpa [hA] using h
  · have h := SemState.acquires_parked (N : Int) W ⟨(N : Int), []⟩ le_rfl
    simpa using h
  · have h := SemState.releases_fifo W.length ⟨(N : Int), W⟩ (by simp)
    simpa using h
  · rfl

theorem semaphore_fifo_wakeup_witness :
    ([100, 101].length = 2 ∧ ([7, 8, 9] : List Nat) ≠ []) ∧
    (SemState.acquires (2 : Int) ⟨0, []⟩ [100, 101]
      = (List.replicate 2 .resolved, ⟨(2 : Int), []⟩) ∧
    SemState.acquires (2 : Int) ⟨(2 : Int), []⟩ [7, 8, 9]
      = (List.replicate ([7, 8, 9] : List Nat).length .parked, ⟨(2 : Int), [7, 8, 9]⟩) ∧
    SemState.releases ⟨(2 : Int), [7, 8, 9]⟩ ([7, 8, 9] : List Nat).length
      = (([7, 8, 9] : List Nat).map some, ⟨(2 : Int), []⟩) ∧
    SemState.release ⟨(2 : Int), []⟩ = (none, ⟨(2 : Int) - 1, []⟩)) :=
  ⟨⟨rfl, by decide⟩,
    semaphore_fifo_wakeup 2 [100, 101] [7, 8, 9] rfl (by decide)⟩

/-- C10: the semaphore does not guard against unmatched releases: on a
fresh semaphore of capacity `N`, one `release()` drives `count` to `-1`
with no error (there is no underflow check), the `available` getter then
reports `N + 1`, and `N + 1` subsequent `acquire()` calls — one more than
the capacity — all resolve immediately. -/
theorem semaphore_unmatched_release (N : Nat) (ids : List Nat)
    (hids : ids.length = N + 1) :
    SemState.release ⟨0, []⟩ = (none, ⟨-1, []⟩) ∧
    SemState.available (N : Int) ⟨-1, []⟩ = (N : Int) + 1 ∧
    SemState.acquires (N : Int) ⟨-1, []⟩ ids
      = (List.replicate (N + 1) .resolved, ⟨(N : Int), []⟩) := by
  refine ⟨rfl, by simp only [SemState.available]; ring, ?_⟩
  have h := SemState.acquires_resolved (N : Int) ids ⟨-1, []⟩ (by simp [hids])
  rw [h, hids]
  simp only [Prod.mk.injEq]
  refine ⟨trivial, ?_⟩
  congr 1
  push_cast
  ring

theorem semaphore_unmatched_release_witness :
    ([5, 6].length = 1 + 1) ∧
    (SemState.release ⟨0, []⟩ = (none, ⟨-1, []⟩) ∧
    SemState.available (1 : Int) ⟨-1, []⟩ = (1 : Int) + 1 ∧
    SemState.acquires (1 : Int) ⟨-1, []⟩ [5, 6]
      = (List.replicate (1 + 1) .resolved, ⟨(1 : Int), []⟩)) :=
  ⟨rfl, semaphore_unmatched_release 1 [5, 6] rfl⟩

/-- Internal state of `bulkhead(options)` (circuit-breaker/bulkhead module,
lines 24-67): the number of currently running tasks and the FIFO queue of
suspended submissions, identified by caller-chosen ids. -/
structure BulkheadState where
  activeCount : Nat
  queue : List Nat
deriving DecidableEq

/-- Outcome of one submission to the bulkhead: the task ran immediately,
was parked in the queue, or was rejected without being invoked. -/
inductive SubmitOutcome where
  | ran
  | parked
  | rejected (e : Err)
deriving DecidableEq

/-- The saturation rejection (line 60): `ApiError(429, 'Bulkhead queue
limit reached')`. -/
def bulkheadSaturationError : Err :=
  .apiError 429 "Bulkhead queue limit reached" none

/-- One submission (lines 48-66): if `activeCount < concurrency` the task
starts at once; else if `queue.length >= maxQueue` the call rejects with
the saturation error without touching the task; else the task is queued.
`maxQueue = none` models the default `Infinity`. -/
def BulkheadState.submit (concurrency : Nat) (maxQueue : Option Nat)
    (s : BulkheadState) (tid : Nat) : SubmitOutcome × BulkheadState :=
  if s.activeCount < concurrency then
    (.ran, { s with activeCount := s.activeCount + 1 })
  else
    match maxQueue with
    | some q =>
      if q ≤ s.queue.length then (.rejected bulkheadSaturationError, s)
      else (.parked, { s with queue := s.queue ++ [tid] })
    | none => (.parked, { s with queue := s.queue ++ [tid] })

/-- Completion of a running task, success or failure alike (the `finally`
blocks at lines 42-45 and 53-55): `activeCount` is decremented, then
`processQueue` runs — if a slot is free and the queue is non-empty, the
oldest entry is dequeued and started (incrementing `activeCount` again).
Returns the id of the queued task that was started, if any. -/
def BulkheadState.complete (concurrency : Nat) (s : BulkheadState) :
    Option Nat × BulkheadState :=
  let a := s.activeCount - 1
  match s.queue with
  | [] => (none, ⟨a, []⟩)
  | t :: rest =>
    if a < concurrency then (some t, ⟨a + 1, rest⟩)
    else (none, ⟨a, t :: rest⟩)

/-- C6: with capacity `C` and queue limit `Q`, a submission made while `C`
tasks are in flight and `Q` submissions are queued is rejected immediately
with the 429 saturation error, leaving the state (and the task) untouched;
a submission made while fewer than `C` tasks are in flight starts the task
immediately; and when a running task completes, the freed slot goes to
exactly the oldest queued entry, which starts running (FIFO,
`activeCount` back to its previous value). -/
theorem bulkhead_saturation_and_fifo (C Q : Nat) (s : BulkheadState)
    (tid : Nat) :
    (s.activeCount = C → s.queue.length = Q →
      BulkheadState.submit C (some Q) s tid
        = (.rejected bulkheadSaturationError, s)) ∧
    (s.activeCount < C →
      BulkheadState.submit C (some Q) s tid
        = (.ran, { s with activeCount := s.activeCount + 1 })) ∧
    (∀ t rest, 1 ≤ s.activeCount → s.activeCount ≤ C → s.queue = t :: rest →
      BulkheadState.complete C s = (some t, ⟨s.activeCount, rest⟩)) := by
  refine ⟨fun hc hq => ?_, fun hc => ?_, fun t rest h1 h2 hq => ?_⟩
  · have hnlt : ¬ s.activeCount < C := by omega
    simp [BulkheadState.submit, hnlt, hq]
  · simp [BulkheadState.submit, hc]
  · have hlt : s.activeCount - 1 < C := by omega
    have ha : s.activeCount - 1 + 1 = s.activeCount := by omega
    simp [BulkheadState.complete, hq, hlt, ha]

theorem bulkhead_saturation_and_fifo_witness :
    BulkheadState.submit 2 (some 1) ⟨2, [4]⟩ 9
      = (.rejected bulkheadSaturationError, ⟨2, [4]⟩) ∧
    BulkheadState.submit 2 (some 1) ⟨1, []⟩ 9
      = (.ran, ⟨2, []⟩) ∧
    BulkheadState.complete 2 ⟨2, [4]⟩ = (some 4, ⟨2, []⟩) :=
  ⟨(bulkhead_saturation_and_fifo 2 1 ⟨2, [4]⟩ 9).1 rfl rfl,
    (bulkhead_saturation_and_fifo 2 1 ⟨1, []⟩ 9).2.1 (by decide),
    (bulkhead_saturation_and_fifo 2 1 ⟨2, [4]⟩ 9).2.2 4 [] (by decide)
      (by decide) rfl⟩

/-- The three states of the circuit breaker (`CircuitBreakerState` in
`src/types.ts`). -/
inductive CBState where
  | CLOSED
  | OPEN
  | HALF_OPEN
deriving DecidableEq

/-- The `CircuitBreaker` class (circuit-breaker/bulkhead module, lines
72-153): mutable fields plus the (defaulted) options. -/
structure CircuitBreaker where
  state : CBState
  failureCount : Nat
  successCount : Nat
  lastFailureTime : Nat
  failureThreshold : Nat
  resetTimeout : Nat
  successThreshold : Nat
  shouldTrip : Err → Bool

/-- The constructor: state `CLOSED`, all counters and `lastFailureTime`
zero; `successThreshold` defaults to `2` and `shouldTrip` to `() => true`
unless overridden (the caller passes the resolved options here). -/
def CircuitBreaker.create (failureThreshold resetTimeout successThreshold : Nat)
    (shouldTrip : Err → Bool) : CircuitBreaker :=
  ⟨.CLOSED, 0, 0, 0, failureThreshold, resetTimeout, successThreshold, shouldTrip⟩

/-- `updateState()` (lines 136-141): lazily moves `OPEN` to `HALF_OPEN`
(resetting `successCount`) once `now - lastFailureTime >= resetTimeout`;
the comparison is on possibly-negative differences, hence in `Int`. -/
def CircuitBreaker.updateState (cb : CircuitBreaker) (now : Nat) : CircuitBreaker :=
  if cb.state = CBState.OPEN ∧
      (cb.resetTimeout : Int) ≤ (now : Int) - (cb.lastFailureTime : Int) then
    { cb with state := .HALF_OPEN, successCount := 0 }
  else cb

/-- `trip()` (lines 143-146). -/
def CircuitBreaker.trip (cb : CircuitBreaker) (now : Nat) : CircuitBreaker :=
  { cb with state := .OPEN, lastFailureTime := now }

/-- `reset()` (lines 148-152). -/
def CircuitBreaker.reset (cb : CircuitBreaker) : CircuitBreaker :=
  { cb with state := .CLOSED, failureCount := 0, successCount := 0 }

/-- `onSuccess()` (lines 112-121). -/
def CircuitBreaker.onSuccess (cb : CircuitBreaker) : CircuitBreaker :=
  if cb.state = CBState.HALF_OPEN then
    let cb1 := { cb with successCount := cb.successCount + 1 }
    if cb.successThreshold ≤ cb1.successCount then cb1.reset else cb1
  else if cb.state = CBState.CLOSED then { cb with failureCount := 0 }
  else cb

/-- `onFailure(error)` (lines 123-134). -/
def CircuitBreaker.onFailure (cb : CircuitBreaker) (e : Err) (now : Nat) :
    CircuitBreaker :=
  if cb.shouldTrip e then
    if cb.state = CBState.CLOSED then
      let cb1 := { cb with failureCount := cb.failureCount + 1 }
      if cb.failureThreshold ≤ cb1.failureCount then cb1.trip now else cb1
    else if cb.state = CBState.HALF_OPEN then cb.trip now
    else cb
  else cb

/-- The 503 rejection thrown while `OPEN` (lines 91-94): carries the code
tag and the last-trip timestamp. -/
def circuitOpenError (lastFailureTime : Nat) : Err :=
  .apiError 503 "Circuit breaker is OPEN"
    (some ⟨some "CIRCUIT_BREAKER_OPEN", some lastFailureTime⟩)

/-- What one `execute(task)` call observably does: its settlement, the
breaker state afterwards, and whether the task was invoked at all. -/
structure ExecResult (T : Type) where
  result : Except Err T
  breaker : CircuitBreaker
  invoked : Bool

/-- `execute(task)` (lines 87-105): refresh the state, reject fast with the
503 error while `OPEN` (the task is not invoked), otherwise run the task
and record its outcome, rethrowing failures unchanged.  The task's outcome
at this instant is passed in as `outcome`. -/
def CircuitBreaker.execute {T : Type} (cb : CircuitBreaker) (now : Nat)
    (outcome : Except Err T) : ExecResult T :=
  let cb1 := cb.updateState now
  if cb1.state = CBState.OPEN then
    ⟨.error (circuitOpenError cb1.lastFailureTime), cb1, false⟩
  else
    match outcome with
    | .ok v => ⟨.ok v, cb1.onSuccess, true⟩
    | .error e => ⟨.error e, cb1.onFailure e now, true⟩

/-- `getState()` (lines 107-110): refreshes the state lazily, then reads it. -/
def CircuitBreaker.getState (cb : CircuitBreaker) (now : Nat) : CBState :=
  (cb.updateState now).state

/-- A sequence of `execute` calls whose tasks all fail, given as
`(time, error)` events. -/
def runFailures (cb : CircuitBreaker) (evs : List (Nat × Err)) : CircuitBreaker :=
  evs.foldl
    (fun c ev => (CircuitBreaker.execute c ev.1 (Except.error ev.2 : Except Err Unit)).breaker)
    cb

/-- A sequence of `execute` calls whose tasks all succeed, given as the
call times. -/
def runSuccesses (cb : CircuitBreaker) (times : List Nat) : CircuitBreaker :=
  times.foldl
    (fun c tv => (CircuitBreaker.execute c tv (Except.ok () : Except Err Unit)).breaker)
    cb

theorem CircuitBreaker.updateState_not_open (cb : CircuitBreaker) (now : Nat)
    (h : cb.state ≠ CBState.OPEN) : cb.updateState now = cb := by
  rw [CircuitBreaker.updateState, if_neg]
  rintro ⟨h1, -⟩
  exact h h1

theorem CircuitBreaker.updateState_open_waiting (cb : CircuitBreaker) (now : Nat)
    (h : (now : Int) - (cb.lastFailureTime : Int) < (cb.resetTimeout : Int)) :
    cb.updateState now = cb := by
  rw [CircuitBreaker.updateState, if_neg]
  rintro ⟨-, h2⟩
  omega

theorem CircuitBreaker.updateState_open_elapsed (cb : CircuitBreaker) (now : Nat)
    (hst : cb.state = CBState.OPEN)
    (h : (cb.resetTimeout : Int) ≤ (now : Int) - (cb.lastFailureTime : Int)) :
    cb.updateState now = { cb with state := .HALF_OPEN, successCount := 0 } := by
  rw [CircuitBreaker.updateState, if_pos ⟨hst, h⟩]

theorem CircuitBreaker.execute_closed_fail_noTrip (cb : CircuitBreaker)
    (t : Nat) (e : Err) (h : cb.state = CBState.CLOSED)
    (htrip : cb.shouldTrip e = true)
    (hfc : cb.failureCount + 1 < cb.failureThreshold) :
    CircuitBreaker.execute cb t (Except.error e : Except Err Unit)
      = ⟨.error e, { cb with failureCount := cb.failureCount + 1 }, true⟩ := by
  have hupd := cb.updateState_not_open t (by simp [h])
  have hnth : ¬ cb.failureThreshold ≤ cb.failureCount + 1 := by omega
  simp only [CircuitBreaker.execute]
  simp only [hupd, h, CircuitBreaker.onFailure, htrip, if_true, hnth, if_false,
    reduceCtorEq, reduceIte]

theorem CircuitBreaker.execute_closed_fail_trip (cb : CircuitBreaker)
    (t : Nat) (e : Err) (h : cb.state = CBState.CLOSED)
    (htrip : cb.shouldTrip e = true)
    (hfc : cb.failureThreshold ≤ cb.failureCount + 1) :
    CircuitBreaker.execute cb t (Except.error e : Except Err Unit)
      = ⟨.error e, { cb with state := .OPEN, failureCount := cb.failureCount + 1, lastFailureTime := t }, true⟩ := by
  have hupd := cb.updateState_not_open t (by simp [h])
  simp only [CircuitBreaker.execute]
  simp only [hupd, h, CircuitBreaker.onFailure, htrip, if_true, hfc,
    CircuitBreaker.trip, reduceCtorEq, reduceIte]

theorem CircuitBreaker.execute_open_reject {T : Type} (cb : CircuitBreaker)
    (t : Nat) (o : Except Err T) (hst : cb.state = CBState.OPEN)
    (ht : (t : Int) - (cb.lastFailureTime : Int) < (cb.resetTimeout : Int)) :
    CircuitBreaker.execute cb t o
      = ⟨.error (circuitOpenError cb.lastFailureTime), cb, false⟩ := by
  have hupd := cb.updateState_open_waiting t ht
  simp only [CircuitBreaker.execute]
  simp only [hupd, hst, if_true, reduceIte]

theorem runFailures_closed (evs : List (Nat × Err)) :
    ∀ cb : CircuitBreaker, cb.state = CBState.CLOSED →
      (∀ e, cb.shouldTrip e = true) →
      cb.failureCount + evs.length < cb.failureThreshold →
      runFailures cb evs = { cb with failureCount := cb.failureCount + evs.length } := by
  induction evs with
  | nil =>
    intro cb _ _ _
    simp [runFailures]
  | cons ev rest ih =>
    intro cb hst htrip hfc
    simp only [List.length_cons] at hfc
    have hstep' := cb.execute_closed_fail_noTrip ev.1 ev.2 hst (htrip ev.2)
      (by omega)
    have hih := ih { cb with failureCount := cb.failureCount + 1 } hst htrip
      (by show cb.failureCount + 1 + rest.length < cb.failureThreshold
          omega)
    simp only [runFailures, List.foldl_cons, List.length_cons] at hih ⊢
    rw [hstep', hih]
    congr 1
    omega

theorem runFailures_append (cb : CircuitBreaker) (evs : List (Nat × Err))
    (ev : Nat × Err) :
    runFailures cb (evs ++ [ev])
      = (CircuitBreaker.execute (runFailures cb evs) ev.1
          (Except.error ev.2 : Except Err Unit)).breaker := by
  simp [runFailures, List.foldl_append]

/-- C1: a breaker built with `failureThreshold = F` (default `shouldTrip`)
and starting `CLOSED` becomes `OPEN` after `F` consecutive failing
`execute` calls, recording the last failure's time as the trip time; any
`execute` call made strictly less than `resetTimeout` after the trip
rejects with the 503 circuit-open error carrying the trip timestamp, does
not invoke its task, and leaves the breaker unchanged (so every such call
behaves identically). -/
theorem circuitBreaker_trip_then_reject (F rt : Nat)
    (pre : List (Nat × Err)) (tF : Nat) (eF : Err)
    (hlen : pre.length + 1 = F) (t : Nat) (o : Except Err Unit)
    (ht : (t : Int) - (tF : Int) < (rt : Int)) (cb1 : CircuitBreaker)
    (hcb1 : cb1 = runFailures (CircuitBreaker.create F rt 2 (fun _ => true))
      (pre ++ [(tF, eF)])) :
    cb1.state = CBState.OPEN ∧ cb1.lastFailureTime = tF ∧
    (CircuitBreaker.execute cb1 t o).invoked = false ∧
    (CircuitBreaker.execute cb1 t o).result = .error (circuitOpenError tF) ∧
    (CircuitBreaker.execute cb1 t o).breaker = cb1 := by
  have hcreate : CircuitBreaker.create F rt 2 (fun _ => true)
      = ⟨CBState.CLOSED, 0, 0, 0, F, rt, 2, fun _ => true⟩ := rfl
  have hpre : runFailures (⟨CBState.CLOSED, 0, 0, 0, F, rt, 2, fun _ => true⟩ : CircuitBreaker) pre
      = ⟨CBState.CLOSED, 0 + pre.length, 0, 0, F, rt, 2, fun _ => true⟩ :=
    runFailures_closed pre ⟨CBState.CLOSED, 0, 0, 0, F, rt, 2, fun _ => true⟩
      rfl (fun _ => rfl) (by show 0 + pre.length < F; omega)
  have happ := runFailures_append
    (⟨CBState.CLOSED, 0, 0, 0, F, rt, 2, fun _ => true⟩ : CircuitBreaker) pre (tF, eF)
  rw [hpre] at happ
  have htrip : CircuitBreaker.execute
      (⟨CBState.CLOSED, 0 + pre.length, 0, 0, F, rt, 2, fun _ => true⟩ : CircuitBreaker)
      tF (Except.error eF : Except Err Unit)
      = ⟨.error eF, ⟨CBState.OPEN, 0 + pre.length + 1, 0, tF, F, rt, 2, fun _ => true⟩, true⟩ :=
    CircuitBreaker.execute_closed_fail_trip
      ⟨CBState.CLOSED, 0 + pre.length, 0, 0, F, rt, 2, fun _ => true⟩
      tF eF rfl rfl (by show F ≤ 0 + pre.length + 1; omega)
  have hB : runFailures (⟨CBState.CLOSED, 0, 0, 0, F, rt, 2, fun _ => true⟩ : CircuitBreaker)
      (pre ++ [(tF, eF)])
      = ⟨CBState.OPEN, 0 + pre.length + 1, 0, tF, F, rt, 2, fun _ => true⟩ := by
    rw [happ, htrip]
  subst hcb1
  rw [hcreate, hB]
  have hrej := CircuitBreaker.execute_open_reject
    (⟨CBState.OPEN, 0 + pre.length + 1, 0, tF, F, rt, 2, fun _ => true⟩ : CircuitBreaker)
    t o rfl ht
  rw [hrej]
  exact ⟨rfl, rfl, rfl, rfl, rfl⟩

theorem circuitBreaker_trip_then_reject_witness :
    (([(0, Err.plain "a")] : List (Nat × Err)).length + 1 = 2 ∧
      ((7 : Int) - (5 : Int) < (10 : Int))) ∧
    (∀ cb1, cb1 = runFailures (CircuitBreaker.create 2 10 2 (fun _ => true))
        ([(0, Err.plain "a")] ++ [(5, Err.plain "b")]) →
      cb1.state = CBState.OPEN ∧ cb1.lastFailureTime = 5 ∧
      (CircuitBreaker.execute cb1 7 (Except.ok () : Except Err Unit)).invoked = false ∧
      (CircuitBreaker.execute cb1 7 (Except.ok () : Except Err Unit)).result
        = .error (circuitOpenError 5) ∧
      (CircuitBreaker.execute cb1 7 (Except.ok () : Except Err Unit)).breaker = cb1) :=
  ⟨⟨rfl, by decide⟩,
    fun cb1 hcb1 => circuitBreaker_trip_then_reject 2 10 [(0, Err.plain "a")]
      5 (Err.plain "b") rfl 7 (Except.ok ()) (by decide) cb1 hcb1⟩

theorem CircuitBreaker.execute_halfOpen_success_below (cb : CircuitBreaker)
    (t : Nat) (v : Unit) (h : cb.state = CBState.HALF_OPEN)
    (hsc : cb.successCount + 1 < cb.successThreshold) :
    CircuitBreaker.execute cb t (Except.ok v : Except Err Unit)
      = ⟨.ok v, { cb with successCount := cb.successCount + 1 }, true⟩ := by
  have hupd := cb.updateState_not_open t (by simp [h])
  have hnth : ¬ cb.successThreshold ≤ cb.successCount + 1 := by omega
  simp only [CircuitBreaker.execute]
  simp only [hupd, h, CircuitBreaker.onSuccess, hnth, if_false, if_true,
    reduceCtorEq, reduceIte]

theorem CircuitBreaker.execute_halfOpen_success_reset (cb : CircuitBreaker)
    (t : Nat) (v : Unit) (h : cb.state = CBState.HALF_OPEN)
    (hsc : cb.successThreshold ≤ cb.successCount + 1) :
    CircuitBreaker.execute cb t (Except.ok v : Except Err Unit)
      = ⟨.ok v, { cb with state := .CLOSED, failureCount := 0, successCount := 0 }, true⟩ := by
  have hupd := cb.updateState_not_open t (by simp [h])
  simp only [CircuitBreaker.execute]
  simp only [hupd, h, CircuitBreaker.onSuccess, hsc, CircuitBreaker.reset,
    if_true, reduceCtorEq, reduceIte]

theorem CircuitBreaker.execute_halfOpen_fail {T : Type} (cb : CircuitBreaker)
    (t : Nat) (e : Err) (h : cb.state = CBState.HALF_OPEN)
    (htrip : cb.shouldTrip e = true) :
    CircuitBreaker.execute cb t (Except.error e : Except Err T)
      = ⟨.error e, { cb with state := .OPEN, lastFailureTime := t }, true⟩ := by
  have hupd := cb.updateState_not_open t (by simp [h])
  simp only [CircuitBreaker.execute]
  simp only [hupd, h, CircuitBreaker.onFailure, htrip, CircuitBreaker.trip,
    if_true, reduceCtorEq, reduceIte]

theorem runSuccesses_halfOpen (times : List Nat) :
    ∀ cb : CircuitBreaker, cb.state = CBState.HALF_OPEN →
      cb.successCount < cb.successThreshold →
      cb.successCount + times.length = cb.successThreshold →
      runSuccesses cb times
        = { cb with state := .CLOSED, failureCount := 0, successCount := 0 } := by
  induction times with
  | nil =>
    intro cb _ hlt hsum
    simp only [List.length_nil, Nat.add_zero] at hsum
    omega
  | cons t0 rest ih =>
    intro cb hst hlt hsum
    simp only [List.length_cons] at hsum
    by_cases hend : cb.successThreshold ≤ cb.successCount + 1
    · have hrest : rest.length = 0 := by omega
      have hnil : rest = [] := List.length_eq_zero.mp hrest
      subst hnil
      have hstep := cb.execute_halfOpen_success_reset t0 () hst hend
      simp only [runSuccesses, List.foldl_cons, List.foldl_nil, hstep]
    · push_neg at hend
      have hstep := cb.execute_halfOpen_success_below t0 () hst hend
      have hih := ih { cb with successCount := cb.successCount + 1 } hst
        (by show cb.successCount + 1 < cb.successThreshold; omega)
        (by show cb.successCount + 1 + rest.length = cb.successThreshold; omega)
      simp only [runSuccesses, List.foldl_cons] at hih ⊢
      rw [hstep, hih]

/-- C4: for a breaker whose state is `OPEN` (default `shouldTrip`), once
`resetTimeout` has elapsed since the trip, `getState`/`execute` lazily move
it to `HALF_OPEN` and the next `execute` actually invokes its task;
`successThreshold` consecutive successful `execute` calls from that point
close the breaker and reset both counters; and a single failing `execute`
in `HALF_OPEN` re-trips it to `OPEN`, stamping that call's time. -/
theorem circuitBreaker_halfOpen_recovery (cb : CircuitBreaker) (t : Nat)
    (hst : cb.state = CBState.OPEN)
    (htrip : ∀ e, cb.shouldTrip e = true)
    (hS : 1 ≤ cb.successThreshold)
    (ht : (cb.resetTimeout : Int) ≤ (t : Int) - (cb.lastFailureTime : Int))
    (times : List Nat) (hlen : times.length = cb.successThreshold)
    (e : Err) (tf : Nat) (o : Except Err Unit) :
    CircuitBreaker.getState cb t = CBState.HALF_OPEN ∧
    (CircuitBreaker.execute cb t o).invoked = true ∧
    (runSuccesses (cb.updateState t) times).state = CBState.CLOSED ∧
    (runSuccesses (cb.updateState t) times).failureCount = 0 ∧
    (runSuccesses (cb.updateState t) times).successCount = 0 ∧
    (CircuitBreaker.execute (cb.updateState t) tf
      (Except.error e : Except Err Unit)).breaker.state = CBState.OPEN ∧
    (CircuitBreaker.execute (cb.updateState t) tf
      (Except.error e : Except Err Unit)).breaker.lastFailureTime = tf := by
  have hupd := cb.updateState_open_elapsed t hst ht
  have hrun := runSuccesses_halfOpen times
    { cb with state := .HALF_OPEN, successCount := 0 } rfl
    (by show 0 < cb.successThreshold; omega)
    (by show 0 + times.length = cb.successThreshold; omega)
  have hfail := CircuitBreaker.execute_halfOpen_fail (T := Unit)
    { cb with state := .HALF_OPEN, successCount := 0 } tf e rfl (htrip e)
  refine ⟨?_, ?_, ?_, ?_, ?_, ?_, ?_⟩
  · rw [CircuitBreaker.getState, hupd]
  · cases o <;> simp [CircuitBreaker.execute, hupd]
  · rw [hupd, hrun]
  · rw [hupd, hrun]
  · rw [hupd, hrun]
  · rw [hupd, hfail]
  · rw [hupd, hfail]

theorem circuitBreaker_halfOpen_recovery_witness :
    ((⟨CBState.OPEN, 0, 0, 3, 1, 5, 2, fun _ => true⟩ : CircuitBreaker).state
        = CBState.OPEN ∧
      1 ≤ (⟨CBState.OPEN, 0, 0, 3, 1, 5, 2, fun _ => true⟩ : CircuitBreaker).successThreshold ∧
      (((⟨CBState.OPEN, 0, 0, 3, 1, 5, 2, fun _ => true⟩ : CircuitBreaker).resetTimeout : Int)
        ≤ (8 : Int) - ((⟨CBState.OPEN, 0, 0, 3, 1, 5, 2, fun _ => true⟩ : CircuitBreaker).lastFailureTime : Int)) ∧
      ([9, 10] : List Nat).length
        = (⟨CBState.OPEN, 0, 0, 3, 1, 5, 2, fun _ => true⟩ : CircuitBreaker).successThreshold) ∧
    (CircuitBreaker.getState ⟨CBState.OPEN, 0, 0, 3, 1, 5, 2, fun _ => true⟩ 8
        = CBState.HALF_OPEN ∧
      (CircuitBreaker.execute (⟨CBState.OPEN, 0, 0, 3, 1, 5, 2, fun _ => true⟩ : CircuitBreaker)
        8 (Except.ok () : Except Err Unit)).invoked = true ∧
      (runSuccesses ((⟨CBState.OPEN, 0, 0, 3, 1, 5, 2, fun _ => true⟩ : CircuitBreaker).updateState 8)
        [9, 10]).state = CBState.CLOSED ∧
      (runSuccesses ((⟨CBState.OPEN, 0, 0, 3, 1, 5, 2, fun _ => true⟩ : CircuitBreaker).updateState 8)
        [9, 10]).failureCount = 0 ∧
      (runSuccesses ((⟨CBState.OPEN, 0, 0, 3, 1, 5, 2, fun _ => true⟩ : CircuitBreaker).updateState 8)
        [9, 10]).successCount = 0 ∧
      (CircuitBreaker.execute ((⟨CBState.OPEN, 0, 0, 3, 1, 5, 2, fun _ => true⟩ : CircuitBreaker).updateState 8)
        11 (Except.error (Err.plain "x") : Except Err Unit)).breaker.state = CBState.OPEN ∧
      (CircuitBreaker.execute ((⟨CBState.OPEN, 0, 0, 3, 1, 5, 2, fun _ => true⟩ : CircuitBreaker).updateState 8)
        11 (Except.error (Err.plain "x") : Except Err Unit)).breaker.lastFailureTime = 11) :=
  ⟨⟨rfl, by decide, by decide, rfl⟩,
    circuitBreaker_halfOpen_recovery ⟨CBState.OPEN, 0, 0, 3, 1, 5, 2, fun _ => true⟩
      8 rfl (fun _ => rfl) (by decide) (by decide) [9, 10] rfl
      (Err.plain "x") 11 (Except.ok ())⟩

/-- Status of one worker spawned by `parallelLimit`
(`src/concurrency.ts:79-90`): about to test the shared cursor (`idle`),
awaiting the task it claimed at index `i` (`running i`), or finished
(`done`, its `runNext` promise resolved). -/
inductive WStatus where
  | idle
  | running (i : Nat)
  | done
deriving DecidableEq

/-- Shared state of one `parallelLimit(tasks, limit)` call: the shared
monotonic cursor (`currentIndex`), the result buffer (`none` = slot not
yet written) and the workers.  Tasks are modelled by the list `vs` of the
values they produce (the all-tasks-succeed case of C7). -/
structure PLState (T : Type) where
  cursor : Nat
  results : List (Option T)
  workers : List WStatus

/-- One atomic segment of worker `w` under cooperative scheduling:
an `idle` worker runs the loop head — it claims index `currentIndex++`
when the cursor is still in range and suspends awaiting that task, else
its `runNext` completes (`done`); a `running i` worker resumes from its
await and writes `results[i] = vs[i]`.  Any other `w` is a no-op. -/
def PLState.step {T : Type} (vs : List T) (s : PLState T) (w : Nat) : PLState T :=
  match s.workers[w]? with
  | none => s
  | some .done => s
  | some .idle =>
    if s.cursor < vs.length then
      { s with cursor := s.cursor + 1,
               workers := s.workers.set w (.running s.cursor) }
    else
      { s with workers := s.workers.set w .done }
  | some (.running i) =>
    { s with results := s.results.set i vs[i]?,
             workers := s.workers.set w .idle }

/-- Run a whole schedule (a sequence of worker choices). -/
def PLState.run {T : Type} (vs : List T) (s : PLState T) (σ : List Nat) : PLState T :=
  σ.foldl (PLState.step vs) s

/-- The initial state of `parallelLimit(tasks, limit)`
(`src/concurrency.ts:76-90`): cursor 0, an all-empty result buffer of the
tasks' length, and `min limit tasks.length` idle workers. -/
def parallelLimitInit (T : Type) (vs : List T) (limit : Nat) : PLState T :=
  ⟨0, List.replicate vs.length none, List.replicate (min limit vs.length) .idle⟩

/-- `Promise.all(workers)` has settled: every worker is done. -/
def PLState.AllDone {T : Type} (s : PLState T) : Prop :=
  ∀ w ∈ s.workers, w = WStatus.done

instance {T : Type} (s : PLState T) : Decidable (PLState.AllDone s) :=
  List.decidableBAll _ s.workers

/-- Invariant tying the cursor, the result buffer and the workers
together; `W` is the (constant) number of workers. -/
def PLInv {T : Type} (vs : List T) (W : Nat) (s : PLState T) : Prop :=
  s.workers.length = W ∧
  s.cursor ≤ vs.length ∧
  s.results.length = vs.length ∧
  (∀ (w i : Nat), s.workers[w]? = some (WStatus.running i) → i < s.cursor) ∧
  (∀ w : Nat, s.workers[w]? = some WStatus.done → s.cursor = vs.length) ∧
  (∀ i : Nat, i < s.cursor →
    s.results[i]? = some vs[i]? ∨ ∃ w : Nat, s.workers[w]? = some (WStatus.running i))

theorem PLInv.init (T : Type) (vs : List T) (limit : Nat) :
    PLInv vs (min limit vs.length) (parallelLimitInit T vs limit) := by
  refine ⟨by simp [parallelLimitInit], by simp [parallelLimitInit],
    by simp [parallelLimitInit], ?_, ?_, ?_⟩
  · intro w i h
    rcases Nat.lt_or_ge w (min limit vs.length) with hw | hw
    · rw [parallelLimitInit] at h
      simp only [List.getElem?_replicate_of_lt hw] at h
      cases h
    · rw [parallelLimitInit] at h
      simp only [] at h
      rw [List.getElem?_eq_none_iff.mpr (by simpa using hw)] at h
      cases h
  · intro w h
    rcases Nat.lt_or_ge w (min limit vs.length) with hw | hw
    · rw [parallelLimitInit] at h
      simp only [List.getElem?_replicate_of_lt hw] at h
      cases h
    · rw [parallelLimitInit] at h
      simp only [] at h
      rw [List.getElem?_eq_none_iff.mpr (by simpa using hw)] at h
      cases h
  · intro i hi
    simp [parallelLimitInit] at hi

theorem PLInv.step {T : Type} (vs : List T) (W : Nat) (s : PLState T)
    (w : Nat) (h : PLInv vs W s) : PLInv vs W (PLState.step vs s w) := by
  obtain ⟨hlen, hcur, hres, hrun, hdone, hslot⟩ := h
  match hw : s.workers[w]? with
  | none =>
    simp only [PLState.step, hw]
    exact ⟨hlen, hcur, hres, hrun, hdone, hslot⟩
  | some WStatus.done =>
    simp only [PLState.step, hw]
    exact ⟨hlen, hcur, hres, hrun, hdone, hslot⟩
  | some WStatus.idle =>
    have hwlt : w < s.workers.length := by
      by_contra hge
      rw [List.getElem?_eq_none_iff.mpr (by omega)] at hw
      cases hw
    by_cases hc : s.cursor < vs.length
    · simp only [PLState.step, hw, hc, if_true]
      refine ⟨by simpa using hlen, hc, hres, ?_, ?_, ?_⟩
      · intro w' i h'
        by_cases hww : w' = w
        · subst hww
          rw [List.getElem?_set_self hwlt] at h'
          cases h'
          exact Nat.lt_succ_self s.cursor
        · rw [List.getElem?_set_ne (fun hh => hww hh.symm)] at h'
          exact Nat.lt_succ_of_lt (hrun w' i h')
      · intro w' h'
        by_cases hww : w' = w
        · subst hww
          rw [List.getElem?_set_self hwlt] at h'
          cases h'
        · rw [List.getElem?_set_ne (fun hh => hww hh.symm)] at h'
          exact absurd hc (by rw [hdone w' h']; omega)
      · intro i hi
        have hi' : i < s.cursor + 1 := hi
        rcases Nat.lt_or_ge i s.cursor with hio | hio
        · rcases hslot i hio with hok | ⟨w', hw'⟩
          · exact Or.inl hok
          · refine Or.inr ⟨w', ?_⟩
            have hww : w' ≠ w := by
              intro hh
              subst hh
              rw [hw] at hw'
              cases hw'
            rw [List.getElem?_set_ne (fun hh => hww hh.symm)]
            exact hw'
        · have hic : i = s.cursor := by omega
          subst hic
          exact Or.inr ⟨w, by rw [List.getElem?_set_self hwlt]⟩
    · simp only [PLState.step, hw, hc, if_false]
      have hceq : s.cursor = vs.length := by omega
      refine ⟨by simpa using hlen, hcur, hres, ?_, ?_, ?_⟩
      · intro w' i h'
        by_cases hww : w' = w
        · subst hww
          rw [List.getElem?_set_self hwlt] at h'
          cases h'
        · rw [List.getElem?_set_ne (fun hh => hww hh.symm)] at h'
          exact hrun w' i h'
      · intro w' _
        exact hceq
      · intro i hi
        rcases hslot i hi with hok | ⟨w', hw'⟩
        · exact Or.inl hok
        · refine Or.inr ⟨w', ?_⟩
          have hww : w' ≠ w := by
            intro hh
            subst hh
            rw [hw] at hw'
            cases hw'
          rw [List.getElem?_set_ne (fun hh => hww hh.symm)]
          exact hw'
  | some (WStatus.running j) =>
    have hwlt : w < s.workers.length := by
      by_contra hge
      rw [List.getElem?_eq_none_iff.mpr (by omega)] at hw
      cases hw
    have hj : j < s.cursor := hrun w j hw
    have hjlen : j < vs.length := by omega
    have hjres : j < s.results.length := by omega
    simp only [PLState.step, hw]
    refine ⟨by simpa using hlen, hcur, by simpa using hres, ?_, ?_, ?_⟩
    · intro w' i h'
      by_cases hww : w' = w
      · subst hww
        rw [List.getElem?_set_self hwlt] at h'
        cases h'
      · rw [List.getElem?_set_ne (fun hh => hww hh.symm)] at h'
        exact hrun w' i h'
    · intro w' h'
      by_cases hww : w' = w
      · subst hww
        rw [List.getElem?_set_self hwlt] at h'
        cases h'
      · rw [List.getElem?_set_ne (fun hh => hww hh.symm)] at h'
        exact hdone w' h'
    · intro i hi
      by_cases hij : i = j
      · subst hij
        exact Or.inl (List.getElem?_set_self hjres)
      · rcases hslot i hi with hok | ⟨w', hw'⟩
        · exact Or.inl (by rw [List.getElem?_set_ne (fun hh => hij hh.symm)]; exact hok)
        · by_cases hww : w' = w
          · subst hww
            rw [hw] at hw'
            cases hw'
            exact absurd rfl hij
          · refine Or.inr ⟨w', ?_⟩
            rw [List.getElem?_set_ne (fun hh => hww hh.symm)]
            exact hw'

theorem PLInv.run {T : Type} (vs : List T) (W : Nat) (σ : List Nat) :
    ∀ s : PLState T, PLInv vs W s → PLInv vs W (PLState.run vs s σ) := by
  induction σ with
  | nil =>
    intro s h
    exact h
  | cons w rest ih =>
    intro s h
    exact ih (PLState.step vs s w) (PLInv.step vs W s w h)

/-- C7: `parallelLimit(tasks, limit)` with `limit ≥ 1` spawns exactly
`min(limit, tasks.length)` workers over the shared monotonic cursor, and
under every cooperative schedule that runs them to completion — i.e.
regardless of the order in which tasks complete — the final result buffer
has `results[i] = tasks[i]`'s value for every `i` (position-stable), when
all tasks succeed. -/
theorem parallelLimit_position_stable (T : Type) (vs : List T) (limit : Nat)
    (hL : 1 ≤ limit) (σ : List Nat)
    (hdone : PLState.AllDone (PLState.run vs (parallelLimitInit T vs limit) σ)) :
    (parallelLimitInit T vs limit).workers.length = min limit vs.length ∧
    (PLState.run vs (parallelLimitInit T vs limit) σ).results = vs.map some := by
  refine ⟨by simp [parallelLimitInit], ?_⟩
  obtain ⟨hlen, hcur, hres, hrun, hdn, hslot⟩ :=
    PLInv.run vs (min limit vs.length) σ (parallelLimitInit T vs limit)
      (PLInv.init T vs limit)
  have hcv : (PLState.run vs (parallelLimitInit T vs limit) σ).cursor
      = vs.length := by
    rcases Nat.eq_zero_or_pos vs.length with h0 | hpos
    · omega
    · have hne : (PLState.run vs (parallelLimitInit T vs limit) σ).workers ≠ [] := by
        intro hnil
        rw [hnil] at hlen
        simp at hlen
        omega
      obtain ⟨st, hstmem⟩ := List.exists_mem_of_ne_nil _ hne
      have hstd := hdone st hstmem
      subst hstd
      obtain ⟨i0, hi0⟩ := List.getElem?_of_mem hstmem
      exact hdn i0 hi0
  apply List.ext_getElem?_iff.mpr
  intro i
  rcases Nat.lt_or_ge i vs.length with hi | hi
  · have hic : i < (PLState.run vs (parallelLimitInit T vs limit) σ).cursor := by
      omega
    rcases hslot i hic with hok | ⟨w', hw'⟩
    · rw [hok, List.getElem?_map, List.getElem?_eq_getElem hi]
      simp
    · exfalso
      have hmem := List.getElem?_mem hw'
      have hcontra := hdone _ hmem
      cases hcontra
  · rw [List.getElem?_eq_none_iff.mpr (by omega),
      List.getElem?_map, List.getElem?_eq_none_iff.mpr (by omega)]
    rfl

theorem parallelLimit_position_stable_witness :
    (1 ≤ 2 ∧
      PLState.AllDone (PLState.run [10, 20, 30]
        (parallelLimitInit Nat [10, 20, 30] 2) [0, 1, 0, 1, 0, 0, 0, 1])) ∧
    ((parallelLimitInit Nat [10, 20, 30] 2).workers.length
        = min 2 ([10, 20, 30] : List Nat).length ∧
      (PLState.run [10, 20, 30] (parallelLimitInit Nat [10, 20, 30] 2)
        [0, 1, 0, 1, 0, 0, 0, 1]).results = ([10, 20, 30] : List Nat).map some) :=
  ⟨⟨by omega, by decide⟩,
    parallelLimit_position_stable Nat [10, 20, 30] 2 (by omega)
      [0, 1, 0, 1, 0, 0, 0, 1] (by decide)⟩
